import Mathlib

/-!
Verification of `scripts/collect_tailscale_logs.py`.

The script is embedded shallowly: JSON documents are modelled by the
inductive type `Json`, Python's `json.dump` (default separators) by
`dumpChars`, Python's `json.loads` by `json_loads` (a fuel-based
recursive-descent parser), and the collector's methods
(`get_tailscale_status`, `get_system_logs`, `format_for_wazuh`,
`save_logs`, `collect`) by functions over an explicit model of the
external environment (outcomes of the two subprocess invocations, a
writability flag, and the target file's contents).
-/

set_option maxHeartbeats 1000000
set_option maxRecDepth 100000

/-! ## Characters and digits -/

/-- Whitespace stripped by Python's `str.strip` (ASCII part). -/
def isPyWs (c : Char) : Bool :=
  c = ' ' || c = '\t' || c = '\n' || c = '\r' || c.toNat = 11 || c.toNat = 12

/-- Whitespace accepted between tokens by `json.loads`. -/
def isJsonWs (c : Char) : Bool :=
  c = ' ' || c = '\t' || c = '\n' || c = '\r'

/-- Lower-case hexadecimal digit for a value below 16 (as emitted by
`json.dump` in `\uXXXX` escapes). -/
def hexChar (n : Nat) : Char :=
  if n < 10 then Char.ofNat (48 + n) else Char.ofNat (87 + n)

/-- Is `c` a hexadecimal digit (either case)? -/
def isHexCh (c : Char) : Bool :=
  (48 ≤ c.toNat && c.toNat ≤ 57) || (97 ≤ c.toNat && c.toNat ≤ 102) ||
    (65 ≤ c.toNat && c.toNat ≤ 70)

/-- Value of a hexadecimal digit. -/
def hexVal (c : Char) : Nat :=
  if 48 ≤ c.toNat && c.toNat ≤ 57 then c.toNat - 48
  else if 97 ≤ c.toNat then c.toNat - 87
  else c.toNat - 55

/-- Four-digit lower-case hexadecimal rendering of `n < 0x10000`. -/
def hex4 (n : Nat) : List Char :=
  [hexChar (n / 4096 % 16), hexChar (n / 256 % 16), hexChar (n / 16 % 16), hexChar (n % 16)]

/-- Decimal digit character. -/
def digitChar10 (n : Nat) : Char := Char.ofNat (48 + n)

/-- Decimal digits of `n`, most significant first (`fuel`-bounded loop;
returns `[]` once `n = 0`). -/
def natCharsAux : Nat → Nat → List Char
  | 0, _ => []
  | _ + 1, 0 => []
  | fuel + 1, n => natCharsAux fuel (n / 10) ++ [digitChar10 (n % 10)]

/-- Decimal rendering of a natural number, as Python prints it. -/
def natChars (n : Nat) : List Char :=
  if n = 0 then ['0'] else natCharsAux (n + 1) n

/-- Numeric value of a list of decimal digit characters. -/
def digitsVal (cs : List Char) : Nat :=
  cs.foldl (fun a c => 10 * a + (c.toNat - 48)) 0

/-- Decimal rendering of an integer, as Python prints it. -/
def intChars (n : Int) : List Char :=
  if n < 0 then '-' :: natChars n.natAbs else natChars n.natAbs

/-! ## JSON documents

The status snapshot and every log line are arbitrary JSON documents; the
design note in the spec asks for a tagged union over
null/bool/number/string/array/object.  Numbers are modelled as integers
(the fragment the collector's records and the claims exercise). -/

inductive Json where
  | null : Json
  | bool (b : Bool) : Json
  | num (n : Int) : Json
  | str (s : String) : Json
  | arr (elems : List Json) : Json
  | obj (members : List (String × Json)) : Json

section JsonInduction

variable {P : Json → Prop} {Q : List Json → Prop} {R : List (String × Json) → Prop}

mutual

/-- Mutual induction for `Json` together with element and member lists. -/
theorem Json.indV (hnull : P .null) (hbool : ∀ b, P (.bool b)) (hnum : ∀ n, P (.num n))
    (hstr : ∀ s, P (.str s))
    (harr : ∀ l, Q l → P (.arr l)) (hobj : ∀ l, R l → P (.obj l))
    (hqnil : Q []) (hqcons : ∀ e es, P e → Q es → Q (e :: es))
    (hrnil : R []) (hrcons : ∀ k v ms, P v → R ms → R ((k, v) :: ms)) :
    ∀ v : Json, P v
  | .null => hnull
  | .bool b => hbool b
  | .num n => hnum n
  | .str s => hstr s
  | .arr l => harr l
      (Json.indE hnull hbool hnum hstr harr hobj hqnil hqcons hrnil hrcons l)
  | .obj l => hobj l
      (Json.indM hnull hbool hnum hstr harr hobj hqnil hqcons hrnil hrcons l)

/-- Mutual induction: element lists. -/
theorem Json.indE (hnull : P .null) (hbool : ∀ b, P (.bool b)) (hnum : ∀ n, P (.num n))
    (hstr : ∀ s, P (.str s))
    (harr : ∀ l, Q l → P (.arr l)) (hobj : ∀ l, R l → P (.obj l))
    (hqnil : Q []) (hqcons : ∀ e es, P e → Q es → Q (e :: es))
    (hrnil : R []) (hrcons : ∀ k v ms, P v → R ms → R ((k, v) :: ms)) :
    ∀ l : List Json, Q l
  | [] => hqnil
  | e :: es =>
      hqcons e es (Json.indV hnull hbool hnum hstr harr hobj hqnil hqcons hrnil hrcons e)
        (Json.indE hnull hbool hnum hstr harr hobj hqnil hqcons hrnil hrcons es)

/-- Mutual induction: member lists. -/
theorem Json.indM (hnull : P .null) (hbool : ∀ b, P (.bool b)) (hnum : ∀ n, P (.num n))
    (hstr : ∀ s, P (.str s))
    (harr : ∀ l, Q l → P (.arr l)) (hobj : ∀ l, R l → P (.obj l))
    (hqnil : Q []) (hqcons : ∀ e es, P e → Q es → Q (e :: es))
    (hrnil : R []) (hrcons : ∀ k v ms, P v → R ms → R ((k, v) :: ms)) :
    ∀ l : List (String × Json), R l
  | [] => hrnil
  | (k, v) :: ms =>
      hrcons k v ms (Json.indV hnull hbool hnum hstr harr hobj hqnil hqcons hrnil hrcons v)
        (Json.indM hnull hbool hnum hstr harr hobj hqnil hqcons hrnil hrcons ms)

end

end JsonInduction

mutual

/-- Boolean equality of JSON documents. -/
def Json.beq : Json → Json → Bool
  | .null, .null => true
  | .bool a, .bool b => a == b
  | .num a, .num b => a == b
  | .str a, .str b => a == b
  | .arr a, .arr b => Json.beqE a b
  | .obj a, .obj b => Json.beqM a b
  | _, _ => false

/-- Boolean equality of element lists. -/
def Json.beqE : List Json → List Json → Bool
  | [], [] => true
  | a :: as, b :: bs => Json.beq a b && Json.beqE as bs
  | _, _ => false

/-- Boolean equality of member lists. -/
def Json.beqM : List (String × Json) → List (String × Json) → Bool
  | [], [] => true
  | (k, v) :: ms, (k2, v2) :: ms2 => k == k2 && Json.beq v v2 && Json.beqM ms ms2
  | _, _ => false

end

theorem Json.beq_iff :
    (∀ a b : Json, Json.beq a b = true ↔ a = b) ∧
    (∀ a b : List Json, Json.beqE a b = true ↔ a = b) ∧
    (∀ a b : List (String × Json), Json.beqM a b = true ↔ a = b) := by
  have hnull : ∀ b : Json, Json.beq .null b = true ↔ .null = b := by
    intro b; cases b <;> simp [Json.beq]
  have hbool : ∀ x, ∀ b : Json, Json.beq (.bool x) b = true ↔ .bool x = b := by
    intro x b; cases b <;> simp [Json.beq]
  have hnum : ∀ x, ∀ b : Json, Json.beq (.num x) b = true ↔ .num x = b := by
    intro x b; cases b <;> simp [Json.beq]
  have hstr : ∀ x, ∀ b : Json, Json.beq (.str x) b = true ↔ .str x = b := by
    intro x b; cases b <;> simp [Json.beq]
  have harr : ∀ l, (∀ b, Json.beqE l b = true ↔ l = b) →
      ∀ b : Json, Json.beq (.arr l) b = true ↔ .arr l = b := by
    intro l ih b; cases b <;> simp [Json.beq, ih]
  have hobj : ∀ l, (∀ b, Json.beqM l b = true ↔ l = b) →
      ∀ b : Json, Json.beq (.obj l) b = true ↔ .obj l = b := by
    intro l ih b; cases b <;> simp [Json.beq, ih]
  have hqnil : ∀ b : List Json, Json.beqE [] b = true ↔ [] = b := by
    intro b; cases b <;> simp [Json.beqE]
  have hqcons : ∀ e es, (∀ b : Json, Json.beq e b = true ↔ e = b) →
      (∀ b, Json.beqE es b = true ↔ es = b) →
      ∀ b, Json.beqE (e :: es) b = true ↔ e :: es = b := by
    intro e es ihe ihes b
    cases b with
    | nil => simp [Json.beqE]
    | cons b bs => simp [Json.beqE, ihe b, ihes bs]; try tauto
  have hrnil : ∀ b : List (String × Json), Json.beqM [] b = true ↔ [] = b := by
    intro b; cases b <;> simp [Json.beqM]
  have hrcons : ∀ k v ms, (∀ b : Json, Json.beq v b = true ↔ v = b) →
      (∀ b, Json.beqM ms b = true ↔ ms = b) →
      ∀ b, Json.beqM ((k, v) :: ms) b = true ↔ (k, v) :: ms = b := by
    intro k v ms ihv ihms b
    cases b with
    | nil => simp [Json.beqM]
    | cons b bs =>
      obtain ⟨k2, v2⟩ := b
      simp [Json.beqM, ihv v2, ihms bs, Prod.ext_iff]
      try tauto
  refine ⟨fun a => ?_, fun a => ?_, fun a => ?_⟩
  · exact Json.indV hnull hbool hnum hstr harr hobj hqnil hqcons hrnil hrcons a
  · exact Json.indE hnull hbool hnum hstr harr hobj hqnil hqcons hrnil hrcons a
  · exact Json.indM hnull hbool hnum hstr harr hobj hqnil hqcons hrnil hrcons a

instance : DecidableEq Json := fun a b =>
  decidable_of_iff (Json.beq a b = true) (Json.beq_iff.1 a b)

/-- Escape sequence `\uXXXX` for a code unit. -/
def uEscape4 (n : Nat) : List Char := '\\' :: 'u' :: hex4 n

/-- Escaping of one character exactly as Python's `json.dump` with its
default `ensure_ascii=True`: the two-character escapes for quote,
backslash, newline, carriage return, tab, backspace and form feed;
`\uXXXX` (a surrogate pair above the BMP) for every other character
outside printable ASCII; the character itself otherwise. -/
def escapeChar (c : Char) : List Char :=
  if c = '"' then ['\\', '"']
  else if c = '\\' then ['\\', '\\']
  else if c = '\n' then ['\\', 'n']
  else if c = '\r' then ['\\', 'r']
  else if c = '\t' then ['\\', 't']
  else if c.toNat = 8 then ['\\', 'b']
  else if c.toNat = 12 then ['\\', 'f']
  else if c.toNat < 32 || 126 < c.toNat then
    if c.toNat < 65536 then uEscape4 c.toNat
    else uEscape4 (55296 + (c.toNat - 65536) / 1024) ++
         uEscape4 (56320 + (c.toNat - 65536) % 1024)
  else [c]

/-- Escape every character of a string body. -/
def escapeList (cs : List Char) : List Char :=
  cs.foldr (fun c acc => escapeChar c ++ acc) []

/-- A JSON string literal: quote, escaped body, quote. -/
def dumpStringChars (s : String) : List Char :=
  '"' :: escapeList s.data ++ ['"']

/-! `dumpChars` renders a document exactly as `json.dump(x, f)` does with
default arguments: item separator `", "` and key separator `": "` (Python
only drops the spaces when `separators`/`indent` are passed, which
`save_logs` does not). -/

/-- Characters of the JSON keyword literal `null`. -/
@[simp] def kwNull : List Char := ['n', 'u', 'l', 'l']

/-- Characters of the JSON keyword literal `true`. -/
@[simp] def kwTrue : List Char := ['t', 'r', 'u', 'e']

/-- Characters of the JSON keyword literal `false`. -/
@[simp] def kwFalse : List Char := ['f', 'a', 'l', 's', 'e']

mutual

/-- Serialization of a document by `json.dump` with default arguments. -/
def dumpChars : Json → List Char
  | .null => kwNull
  | .bool b => if b then kwTrue else kwFalse
  | .num n => intChars n
  | .str s => dumpStringChars s
  | .arr [] => ['[', ']']
  | .arr (e :: es) => '[' :: (dumpChars e ++ dumpElems es) ++ [']']
  | .obj [] => ['{', '}']
  | .obj (m :: ms) => '{' :: (dumpMember m ++ dumpMembers ms) ++ ['}']

/-- One object member, `"key": value`. -/
def dumpMember : String × Json → List Char
  | (k, v) => dumpStringChars k ++ ':' :: ' ' :: dumpChars v

/-- Remaining array elements, each preceded by `", "`. -/
def dumpElems : List Json → List Char
  | [] => []
  | e :: es => ',' :: ' ' :: (dumpChars e ++ dumpElems es)

/-- Remaining object members, each preceded by `", "`. -/
def dumpMembers : List (String × Json) → List Char
  | [] => []
  | m :: ms => ',' :: ' ' :: (dumpMember m ++ dumpMembers ms)

end

mutual

/-- The most compact serialization of a document: what `jq -c` (or
`json.dump` with `separators=(",", ":")`) would emit.  This definition
follows the spec's words, for comparison with `dumpChars`. -/
def compactChars : Json → List Char
  | .null => kwNull
  | .bool b => if b then kwTrue else kwFalse
  | .num n => intChars n
  | .str s => dumpStringChars s
  | .arr [] => ['[', ']']
  | .arr (e :: es) => '[' :: (compactChars e ++ compactElems es) ++ [']']
  | .obj [] => ['{', '}']
  | .obj (m :: ms) => '{' :: (compactMember m ++ compactMembers ms) ++ ['}']

/-- One object member, `"key":value`, compact form. -/
def compactMember : String × Json → List Char
  | (k, v) => dumpStringChars k ++ ':' :: compactChars v

/-- Remaining array elements, compact form. -/
def compactElems : List Json → List Char
  | [] => []
  | e :: es => ',' :: (compactChars e ++ compactElems es)

/-- Remaining object members, compact form. -/
def compactMembers : List (String × Json) → List Char
  | [] => []
  | m :: ms => ',' :: (compactMember m ++ compactMembers ms)

end

/-! ## A model of `json.loads` -/

/-- Skip JSON whitespace. -/
def skipWs (cs : List Char) : List Char := cs.dropWhile isJsonWs

/-- Is `c` a decimal digit? -/
def isDigitCh (c : Char) : Bool :=
  48 ≤ c.toNat && c.toNat ≤ 57

/-- The character named by a two-character escape sequence, if `e` is
one of the eight short escape names. -/
def escChar1 (e : Char) : Option Char :=
  if e = '"' then some '"'
  else if e = '\\' then some '\\'
  else if e = '/' then some '/'
  else if e = 'n' then some '\n'
  else if e = 't' then some '\t'
  else if e = 'r' then some '\r'
  else if e = 'b' then some (Char.ofNat 8)
  else if e = 'f' then some (Char.ofNat 12)
  else none

mutual

/-- Parse the body of a string literal (everything after the opening
quote), undoing the escapes of `escapeChar`; strict mode, so raw control
characters and lone surrogate escapes are rejected. -/
def parseStringBody : List Char → Option (List Char × List Char)
  | [] => none
  | c :: cs =>
    if c = '"' then some ([], cs)
    else if c = '\\' then parseEscape cs
    else if c.toNat < 32 then none
    else (parseStringBody cs).map (fun p => (c :: p.1, p.2))

/-- Continue a string body after a backslash. -/
def parseEscape : List Char → Option (List Char × List Char)
  | [] => none
  | e :: r =>
    match escChar1 e with
    | some d => (parseStringBody r).map (fun p => (d :: p.1, p.2))
    | none => if e = 'u' then parseUEscape r else none

/-- Continue a string body after `\u`. -/
def parseUEscape : List Char → Option (List Char × List Char)
  | h1 :: h2 :: h3 :: h4 :: r1 =>
    (if isHexCh h1 && isHexCh h2 && isHexCh h3 && isHexCh h4 then
      let k := hexVal h1 * 4096 + hexVal h2 * 256 + hexVal h3 * 16 + hexVal h4
      if 55296 ≤ k ∧ k < 56320 then parseLowSurrogate k r1
      else if 56320 ≤ k ∧ k < 57344 then none
      else (parseStringBody r1).map (fun p => (Char.ofNat k :: p.1, p.2))
    else none)
  | _ => none

/-- Continue a string body after a high-surrogate `\uXXXX`, which must
be followed by a low-surrogate escape. -/
def parseLowSurrogate : Nat → List Char → Option (List Char × List Char)
  | k, b1 :: u1 :: g1 :: g2 :: g3 :: g4 :: r2 =>
    (if b1 = '\\' ∧ u1 = 'u' ∧ (isHexCh g1 && isHexCh g2 && isHexCh g3 && isHexCh g4) = true then
      let k2 := hexVal g1 * 4096 + hexVal g2 * 256 + hexVal g3 * 16 + hexVal g4
      if 56320 ≤ k2 ∧ k2 < 57344 then
        (parseStringBody r2).map (fun p =>
          (Char.ofNat (65536 + (k - 55296) * 1024 + (k2 - 56320)) :: p.1, p.2))
      else none
    else none)
  | _, _ => none

end

/-- Exactly the three given characters, then the parsed value. -/
def expect3 (a b c : Char) (v : Json) : List Char → Option (Json × List Char)
  | x :: y :: z :: r => if x = a ∧ y = b ∧ z = c then some (v, r) else none
  | _ => none

/-- Exactly the four given characters, then the parsed value. -/
def expect4 (a b c d : Char) (v : Json) : List Char → Option (Json × List Char)
  | x :: y :: z :: w :: r =>
    if x = a ∧ y = b ∧ z = c ∧ w = d then some (v, r) else none
  | _ => none

/-- Parse a nonempty run of decimal digits. -/
def parseDigits (cs : List Char) : Option (Nat × List Char) :=
  let ds := cs.takeWhile isDigitCh
  if ds = [] then none else some (digitsVal ds, cs.dropWhile isDigitCh)

mutual

/-- Recursive-descent JSON value parser (fuel-bounded), modelling
`json.loads`' grammar on the integer-number fragment. -/
def parseVal : Nat → List Char → Option (Json × List Char)
  | 0, _ => none
  | fuel + 1, cs =>
    match skipWs cs with
    | [] => none
    | c :: cs1 =>
      if c = 'n' then expect3 'u' 'l' 'l' .null cs1
      else if c = 't' then expect3 'r' 'u' 'e' (.bool true) cs1
      else if c = 'f' then expect4 'a' 'l' 's' 'e' (.bool false) cs1
      else if c = '"' then (parseStringBody cs1).map (fun p => (.str (String.mk p.1), p.2))
      else if c = '[' then parseArrBody fuel cs1
      else if c = '{' then parseObjBody fuel cs1
      else if c = '-' then
        (match parseDigits cs1 with
         | none => none
         | some (m, r) => some (.num (-(m : Int)), r))
      else
        (match parseDigits (c :: cs1) with
         | none => none
         | some (m, r) => some (.num ((m : Nat) : Int), r))

/-- After `[`: either `]` or a first element followed by the rest. -/
def parseArrBody : Nat → List Char → Option (Json × List Char)
  | 0, _ => none
  | fuel + 1, cs =>
    match skipWs cs with
    | [] => none
    | d :: ds =>
      if d = ']' then some (.arr [], ds)
      else
        match parseVal fuel (d :: ds) with
        | none => none
        | some (v, r1) =>
          match parseElemsRest fuel r1 with
          | none => none
          | some (vs, r2) => some (.arr (v :: vs), r2)

/-- After the first array element: `,`-separated elements up to `]`. -/
def parseElemsRest : Nat → List Char → Option (List Json × List Char)
  | 0, _ => none
  | fuel + 1, cs =>
    match skipWs cs with
    | [] => none
    | c :: cs1 =>
      if c = ']' then some ([], cs1)
      else if c = ',' then
        match parseVal fuel cs1 with
        | none => none
        | some (v, r1) =>
          match parseElemsRest fuel r1 with
          | none => none
          | some (vs, r2) => some (v :: vs, r2)
      else none

/-- After `{`: either `}` or a first member followed by the rest. -/
def parseObjBody : Nat → List Char → Option (Json × List Char)
  | 0, _ => none
  | fuel + 1, cs =>
    match skipWs cs with
    | [] => none
    | d :: ds =>
      if d = '}' then some (.obj [], ds)
      else if d = '"' then
        match parseMember fuel ds with
        | none => none
        | some (kv, r1) =>
          match parseMembersRest fuel r1 with
          | none => none
          | some (ms, r2) => some (.obj (kv :: ms), r2)
      else none

/-- After the opening quote of a member key: key body, colon, value. -/
def parseMember : Nat → List Char → Option ((String × Json) × List Char)
  | 0, _ => none
  | fuel + 1, cs =>
    match parseStringBody cs with
    | none => none
    | some (k, r1) =>
      match skipWs r1 with
      | [] => none
      | e :: es =>
        if e = ':' then
          match parseVal fuel es with
          | none => none
          | some (v, r2) => some ((String.mk k, v), r2)
        else none

/-- After the first object member: `,`-separated members up to `}`. -/
def parseMembersRest : Nat → List Char → Option (List (String × Json) × List Char)
  | 0, _ => none
  | fuel + 1, cs =>
    match skipWs cs with
    | [] => none
    | c :: cs1 =>
      if c = '}' then some ([], cs1)
      else if c = ',' then
        match skipWs cs1 with
        | [] => none
        | d :: ds =>
          if d = '"' then
            match parseMember fuel ds with
            | none => none
            | some (kv, r1) =>
              match parseMembersRest fuel r1 with
              | none => none
              | some (ms, r2) => some (kv :: ms, r2)
          else none
      else none

end

/-- Model of `json.loads`: parse one document, allow surrounding
whitespace, require the input to be exhausted.  The fuel `length + 1`
suffices because every recursive descent first consumes a character. -/
def json_loads (cs : List Char) : Option Json :=
  match parseVal (cs.length + 1) cs with
  | some (v, rest) => if skipWs rest = [] then some v else none
  | none => none

/-- A sample status-command output: the text of the object mapping
"Self" to `true` (spelled as a character list to keep quoting simple). -/
def exStatusOut : List Char :=
  '{' :: '"' :: 'S' :: 'e' :: 'l' :: 'f' :: '"' :: ':' :: ' ' ::
    't' :: 'r' :: 'u' :: 'e' :: '}' :: []

/-- A sample journal line: the text of the object mapping "MESSAGE" to
"a". -/
def exLogLine : List Char :=
  '{' :: '"' :: 'M' :: 'E' :: 'S' :: 'S' :: 'A' :: 'G' :: 'E' :: '"' :: ':' :: ' ' ::
    '"' :: 'a' :: '"' :: '}' :: []

example : json_loads "null".data = some .null := by decide
example : json_loads exStatusOut = some (.obj [("Self", .bool true)]) := by decide
example : json_loads "not json".data = none := by decide
example : json_loads " [1, -2, \"x\"] ".data =
    some (.arr [.num 1, .num (-2), .str "x"]) := by decide
example : json_loads (dumpChars (.obj [("a", .arr [.num 1, .null])])) =
    some (.obj [("a", .arr [.num 1, .null])]) := by decide

/-! ## The collector

`collect_tailscale_logs.py` interacts with the world through two
subprocess invocations, the filesystem and the wall clock.  Those are
modelled explicitly: a `CmdOutcome` describes what one external command
did (`absent` = the executable is missing, raising `FileNotFoundError`;
`ran code out` = it exited with `code` after printing `out`); the target
file's contents are an `Option (List Char)` (`none` = the file does not
exist); the collection timestamp is a parameter (captured once per
invocation, as the script does). -/

/-- Outcome of invoking one external command. -/
inductive CmdOutcome where
  | absent : CmdOutcome
  | ran (exitCode : Nat) (stdout : List Char) : CmdOutcome
deriving DecidableEq

/-- Python exceptions the script can let escape. -/
inductive PyError where
  | jsonDecodeError : PyError
  | attributeError : PyError
deriving DecidableEq

/-- Python truthiness of a parsed JSON value (`if status:`). -/
def Json.pyTruthy : Json → Bool
  | .null => false
  | .bool b => b
  | .num n => n != 0
  | .str s => s.data != []
  | .arr l => l != []
  | .obj l => l != []

/-- Is the value a JSON object (a Python `dict`)? -/
def Json.isObj : Json → Bool
  | .obj _ => true
  | _ => false

/-- Python `dict.get(key, default)` on an object's member list (duplicate
keys cannot occur in a Python `dict`; if present in the model, the last
binding wins, matching `json.loads`). -/
def dictGet (members : List (String × Json)) (key : String) (dflt : Json) : Json :=
  match members.foldl (fun acc kv => if kv.1 = key then some kv.2 else acc) none with
  | some v => v
  | none => dflt

/-! ### `get_tailscale_status`

```python
try:
    result = subprocess.run(['tailscale', 'status', '--json'],
                            capture_output=True, text=True, check=True)
    return json.loads(result.stdout)
except subprocess.CalledProcessError as e: ... return None
except FileNotFoundError: ... return None
```

`check=True` raises `CalledProcessError` on a nonzero exit (caught), a
missing executable raises `FileNotFoundError` (caught), and
`json.loads` raises `json.JSONDecodeError` on malformed output — which
is **not** caught by either handler. -/

/-- Model of `TailscaleLogCollector.get_tailscale_status`; `.error`
means the exception escapes the method. -/
def get_tailscale_status : CmdOutcome → Except PyError (Option Json)
  | .absent => .ok none
  | .ran exitCode out =>
    if exitCode = 0 then
      match json_loads out with
      | some v => .ok (some v)
      | none => .error .jsonDecodeError
    else .ok none

/-! ### `get_system_logs` -/

/-- Python `str.strip()`. -/
def pyStrip (cs : List Char) : List Char :=
  ((cs.dropWhile isPyWs).reverse.dropWhile isPyWs).reverse

/-- Python `str.split('\n')`. -/
def splitNL : List Char → List (List Char)
  | [] => [[]]
  | c :: cs =>
    match splitNL cs with
    | [] => [[]]
    | l :: ls => if c = '\n' then [] :: l :: ls else (c :: l) :: ls

/-- Lines joined by newline characters (the shape of a
one-JSON-object-per-line standard output). -/
def joinNL : List (List Char) → List Char
  | [] => []
  | [l] => l
  | l :: ls => l ++ '\n' :: joinNL ls

/-- Model of `TailscaleLogCollector.get_system_logs`:
`result.stdout.strip().split('\n')`, keeping each nonempty line that
parses as JSON (`except json.JSONDecodeError: continue`);
`CalledProcessError` and `FileNotFoundError` both yield `[]`.  The
`lines` argument only affects the external command's own behaviour, so
it does not appear in the model. -/
def get_system_logs : CmdOutcome → List Json
  | .absent => []
  | .ran exitCode out =>
    if exitCode = 0 then
      (splitNL (pyStrip out)).filterMap fun line =>
        if line = [] then none else json_loads line
    else []

/-! ### `format_for_wazuh` -/

/-- The five keys `format_for_wazuh` recognizes in a journal entry. -/
def recognizedKeys : List String :=
  ["__REALTIME_TIMESTAMP", "MESSAGE", "PRIORITY", "_SYSTEMD_UNIT", "_HOSTNAME"]

/-- One normalized event: the five `log.get(...)` extractions.  A log
document that is not a `dict` has no `.get` method, so Python raises
`AttributeError`. -/
def format_event (timestamp : String) : Json → Except PyError Json
  | .obj fields => .ok (.obj
      [("timestamp", dictGet fields "__REALTIME_TIMESTAMP" (.str timestamp)),
       ("message", dictGet fields "MESSAGE" (.str "")),
       ("priority", dictGet fields "PRIORITY" (.str "6")),
       ("unit", dictGet fields "_SYSTEMD_UNIT" (.str "tailscaled")),
       ("hostname", dictGet fields "_HOSTNAME" (.str "unknown"))])
  | _ => .error .attributeError

/-- The `for log in system_logs:` loop, appending one event per log until
an exception escapes. -/
def format_events (timestamp : String) : List Json → Except PyError (List Json)
  | [] => .ok []
  | l :: ls =>
    match format_event timestamp l with
    | .error e => .error e
    | .ok ev =>
      match format_events timestamp ls with
      | .error e => .error e
      | .ok evs => .ok (ev :: evs)

/-- The `wazuh_logs` dictionary, in insertion order. -/
def mkRecord (timestamp : String) (status : Json) (events : List Json) : Json :=
  .obj [("timestamp", .str timestamp),
        ("source", .str "tailscale"),
        ("collector_version", .str "1.0"),
        ("status", status),
        ("events", .arr events)]

/-- Model of `TailscaleLogCollector.format_for_wazuh` (the collection
timestamp, generated once at entry, is the `timestamp` parameter). -/
def format_for_wazuh (timestamp : String) (status_data : Json) (system_logs : List Json) :
    Except PyError Json :=
  (format_events timestamp system_logs).map (mkRecord timestamp status_data)

/-- Field lookup on a record (first binding; the records this script
builds have distinct keys). -/
def getField (r : Json) (key : String) : Option Json :=
  match r with
  | .obj members => (members.find? (fun kv => kv.1 = key)).map (·.2)
  | _ => none

/-! ### `save_logs`

```python
with open(self.log_file, 'a') as f:
    json.dump(logs, f)
    f.write('\n')
```

Append-open creates the file when absent and never truncates; the
method returns the path on success and `None` on `PermissionError`
(modelled by the `writable` flag). -/

/-- Model of `TailscaleLogCollector.save_logs`: new file contents plus a
success flag (`true` = the method returned the path). -/
def save_logs (writable : Bool) (file : Option (List Char)) (logs : Json) :
    Option (List Char) × Bool :=
  if writable then (some ((file.getD []) ++ dumpChars logs ++ ['\n']), true)
  else (file, false)

/-! ### `collect` and the entry point -/

/-- Model of `TailscaleLogCollector.collect`: final file contents plus
the exception that escaped the run, if any.  The `if status:` gate is
Python truthiness of the parsed status. -/
def collect (statusCmd logCmd : CmdOutcome) (writable : Bool) (timestamp : String)
    (file : Option (List Char)) : Option (List Char) × Option PyError :=
  match get_tailscale_status statusCmd with
  | .error e => (file, some e)
  | .ok none => (file, none)
  | .ok (some status) =>
    if status.pyTruthy then
      match format_for_wazuh timestamp status (get_system_logs logCmd) with
      | .error e => (file, some e)
      | .ok record => ((save_logs writable file record).1, none)
    else (file, none)

/-- Filesystem state seen by the collector: whether the output directory
exists, and the target file's contents (`none` = absent). -/
structure FState where
  dirExists : Bool
  file : Option (List Char)
deriving DecidableEq

/-- Model of `TailscaleLogCollector.__init__`:
`self.output_dir.mkdir(parents=True, exist_ok=True)` creates the output
directory (and missing parents) unconditionally. -/
def collectorInit (s : FState) : FState :=
  { s with dirExists := true }

/-- One whole invocation (`main`): construct the collector (which makes
the directory), then run `collect`. -/
def runMain (statusCmd logCmd : CmdOutcome) (writable : Bool) (timestamp : String)
    (s : FState) : FState × Option PyError :=
  let s1 := collectorInit s
  let r := collect statusCmd logCmd writable timestamp s1.file
  (⟨s1.dirExists, r.1⟩, r.2)

example :
    collect (.ran 0 exStatusOut) (.ran 0 exLogLine)
      true "T" none =
    (some (dumpChars (mkRecord "T" (.obj [("Self", .bool true)])
      [.obj [("timestamp", .str "T"), ("message", .str "a"), ("priority", .str "6"),
             ("unit", .str "tailscaled"), ("hostname", .str "unknown")]]) ++ ['\n']),
     none) := by decide

/-! ## Lemmas: decimal digits -/

theorem digitChar10_isDigit : ∀ m, m < 10 → isDigitCh (digitChar10 m) = true := by decide

theorem digitChar10_toNat : ∀ m, m < 10 → (digitChar10 m).toNat = 48 + m := by decide

theorem natCharsAux_digits (fuel : Nat) :
    ∀ n, ∀ c ∈ natCharsAux fuel n, isDigitCh c = true := by
  induction fuel with
  | zero => intro n; simp [natCharsAux]
  | succ f ih =>
    intro n
    cases n with
    | zero => simp [natCharsAux]
    | succ m =>
      intro c hc
      rw [show natCharsAux (f + 1) (m + 1) =
            natCharsAux f ((m + 1) / 10) ++ [digitChar10 ((m + 1) % 10)] from rfl] at hc
      rcases List.mem_append.1 hc with h | h
      · exact ih _ c h
      · simp at h
        subst h
        exact digitChar10_isDigit _ (by omega)

theorem digitsVal_append (xs : List Char) (c : Char) :
    digitsVal (xs ++ [c]) = 10 * digitsVal xs + (c.toNat - 48) := by
  simp [digitsVal, List.foldl_append]

theorem natCharsAux_val (fuel : Nat) :
    ∀ n, n ≤ fuel → digitsVal (natCharsAux fuel n) = n := by
  induction fuel with
  | zero =>
    intro n h
    have : n = 0 := by omega
    subst this
    simp [natCharsAux, digitsVal]
  | succ f ih =>
    intro n h
    cases n with
    | zero => simp [natCharsAux, digitsVal]
    | succ m =>
      rw [show natCharsAux (f + 1) (m + 1) =
            natCharsAux f ((m + 1) / 10) ++ [digitChar10 ((m + 1) % 10)] from rfl]
      rw [digitsVal_append, ih _ (by omega), digitChar10_toNat _ (by omega)]
      omega

theorem natChars_val (n : Nat) : digitsVal (natChars n) = n := by
  by_cases h : n = 0
  · subst h; decide
  · simp only [natChars, if_neg h]
    exact natCharsAux_val (n + 1) n (by omega)

theorem natChars_digits (n : Nat) : ∀ c ∈ natChars n, isDigitCh c = true := by
  by_cases h : n = 0
  · subst h; decide
  · simp only [natChars, if_neg h]
    exact natCharsAux_digits (n + 1) n

theorem natChars_ne_nil (n : Nat) : natChars n ≠ [] := by
  by_cases h : n = 0
  · subst h; decide
  · simp only [natChars, if_neg h]
    cases n with
    | zero => simp at h
    | succ m =>
      rw [show natCharsAux (m + 1 + 1) (m + 1) =
            natCharsAux (m + 1) ((m + 1) / 10) ++ [digitChar10 ((m + 1) % 10)] from rfl]
      simp

/-! ## Lemmas: takeWhile / dropWhile -/

/-- The head of the list, if any, falsifies `p`. -/
def headNot (p : Char → Bool) : List Char → Prop
  | [] => True
  | c :: _ => p c = false

theorem takeWhile_all_append (p : Char → Bool) (xs ys : List Char)
    (hxs : ∀ x ∈ xs, p x = true) (hys : headNot p ys) :
    (xs ++ ys).takeWhile p = xs ∧ (xs ++ ys).dropWhile p = ys := by
  induction xs with
  | nil =>
    cases ys with
    | nil => simp
    | cons y ys =>
      simp only [headNot] at hys
      simp [List.takeWhile_cons, List.dropWhile_cons, hys]
  | cons x xs ih =>
    have hx : p x = true := hxs x (by simp)
    have := ih (fun c hc => hxs c (by simp [hc]))
    simp [List.takeWhile_cons, List.dropWhile_cons, hx, this.1, this.2]

/-! ## Lemmas: hexadecimal -/

theorem hexVal_hexChar : ∀ m, m < 16 → hexVal (hexChar m) = m := by decide

theorem isHexCh_hexChar : ∀ m, m < 16 → isHexCh (hexChar m) = true := by decide

theorem hex4_decode (n : Nat) (h : n < 65536) :
    hexVal (hexChar (n / 4096 % 16)) * 4096 + hexVal (hexChar (n / 256 % 16)) * 256 +
      hexVal (hexChar (n / 16 % 16)) * 16 + hexVal (hexChar (n % 16)) = n := by
  rw [hexVal_hexChar _ (by omega), hexVal_hexChar _ (by omega),
      hexVal_hexChar _ (by omega), hexVal_hexChar _ (by omega)]
  omega

theorem hex4_isHex (n : Nat) :
    (isHexCh (hexChar (n / 4096 % 16)) && isHexCh (hexChar (n / 256 % 16)) &&
      isHexCh (hexChar (n / 16 % 16)) && isHexCh (hexChar (n % 16))) = true := by
  rw [isHexCh_hexChar _ (by omega), isHexCh_hexChar _ (by omega),
      isHexCh_hexChar _ (by omega), isHexCh_hexChar _ (by omega)]
  rfl

/-- Validity of a character's code point, in `Nat` form. -/
theorem char_toNat_valid (c : Char) :
    c.toNat < 55296 ∨ (57344 ≤ c.toNat ∧ c.toNat < 1114112) := by
  have h := c.valid
  rcases h with h | ⟨h1, h2⟩
  · left
    exact h
  · right
    exact ⟨h1, h2⟩

/-! ## Lemmas: string escaping round-trip -/

theorem parseUEscape_bmp (k : Nat) (hk : k < 65536)
    (hs1 : ¬(55296 ≤ k ∧ k < 56320)) (hs2 : ¬(56320 ≤ k ∧ k < 57344))
    (rest : List Char) :
    parseUEscape (hex4 k ++ rest) =
      (parseStringBody rest).map (fun p => (Char.ofNat k :: p.1, p.2)) := by
  simp only [hex4, List.cons_append, List.nil_append, parseUEscape]
  rw [if_pos (hex4_isHex k), hex4_decode k hk]
  rw [if_neg hs1, if_neg hs2]

theorem parseUEscape_astral (c : Char) (h : 65536 ≤ c.toNat) (rest : List Char) :
    parseUEscape (hex4 (55296 + (c.toNat - 65536) / 1024) ++
      ('\\' :: 'u' :: (hex4 (56320 + (c.toNat - 65536) % 1024) ++ rest))) =
      (parseStringBody rest).map (fun p => (c :: p.1, p.2)) := by
  have hcv := char_toNat_valid c
  have hhi : 55296 + (c.toNat - 65536) / 1024 < 65536 := by omega
  have hlo : 56320 + (c.toNat - 65536) % 1024 < 65536 := by omega
  simp only [hex4, List.cons_append, List.nil_append, parseUEscape]
  rw [if_pos (hex4_isHex _), hex4_decode _ hhi]
  rw [if_pos (by omega : 55296 ≤ 55296 + (c.toNat - 65536) / 1024 ∧
        55296 + (c.toNat - 65536) / 1024 < 56320)]
  simp only [parseLowSurrogate]
  rw [if_pos ⟨trivial, trivial, hex4_isHex _⟩, hex4_decode _ hlo]
  rw [if_pos (by omega : 56320 ≤ 56320 + (c.toNat - 65536) % 1024 ∧
        56320 + (c.toNat - 65536) % 1024 < 57344)]
  have heq : 65536 + (55296 + (c.toNat - 65536) / 1024 - 55296) * 1024 +
      (56320 + (c.toNat - 65536) % 1024 - 56320) = c.toNat := by omega
  rw [heq, Char.ofNat_toNat]

theorem parseStringBody_escape (c : Char) (rest : List Char) :
    parseStringBody (escapeChar c ++ rest) =
      (parseStringBody rest).map (fun p => (c :: p.1, p.2)) := by
  by_cases h1 : c = '"'
  · subst h1; simp [escapeChar, parseStringBody, parseEscape, escChar1]
  by_cases h2 : c = '\\'
  · subst h2; simp [escapeChar, parseStringBody, parseEscape, escChar1]
  by_cases h3 : c = '\n'
  · subst h3; simp [escapeChar, parseStringBody, parseEscape, escChar1]
  by_cases h4 : c = '\r'
  · subst h4; simp [escapeChar, parseStringBody, parseEscape, escChar1]
  by_cases h5 : c = '\t'
  · subst h5; simp [escapeChar, parseStringBody, parseEscape, escChar1]
  by_cases h6 : c.toNat = 8
  · have hc : c = Char.ofNat 8 := by rw [← h6, Char.ofNat_toNat]
    subst hc
    simp [escapeChar, parseStringBody, parseEscape, escChar1]
  by_cases h7 : c.toNat = 12
  · have hc : c = Char.ofNat 12 := by rw [← h7, Char.ofNat_toNat]
    subst hc
    simp [escapeChar, parseStringBody, parseEscape, escChar1]
  by_cases h8 : c.toNat < 32 || 126 < c.toNat
  · have hcv := char_toNat_valid c
    rw [show escapeChar c =
        (if c.toNat < 65536 then uEscape4 c.toNat
         else uEscape4 (55296 + (c.toNat - 65536) / 1024) ++
              uEscape4 (56320 + (c.toNat - 65536) % 1024)) by
      simp [escapeChar, h1, h2, h3, h4, h5, h6, h7, h8]]
    by_cases h9 : c.toNat < 65536
    · rw [if_pos h9]
      rw [show uEscape4 c.toNat ++ rest = '\\' :: 'u' :: (hex4 c.toNat ++ rest) by
        simp [uEscape4]]
      rw [show parseStringBody ('\\' :: 'u' :: (hex4 c.toNat ++ rest)) =
          parseEscape ('u' :: (hex4 c.toNat ++ rest)) by
        simp [parseStringBody]]
      rw [show parseEscape ('u' :: (hex4 c.toNat ++ rest)) =
          parseUEscape (hex4 c.toNat ++ rest) by
        simp [parseEscape, escChar1]]
      rw [parseUEscape_bmp c.toNat h9 (by omega) (by omega), Char.ofNat_toNat]
    · rw [if_neg h9]
      rw [show (uEscape4 (55296 + (c.toNat - 65536) / 1024) ++
            uEscape4 (56320 + (c.toNat - 65536) % 1024)) ++ rest =
          '\\' :: 'u' :: (hex4 (55296 + (c.toNat - 65536) / 1024) ++
            ('\\' :: 'u' :: (hex4 (56320 + (c.toNat - 65536) % 1024) ++ rest))) by
        simp [uEscape4]]
      rw [show parseStringBody ('\\' :: 'u' :: (hex4 (55296 + (c.toNat - 65536) / 1024) ++
            ('\\' :: 'u' :: (hex4 (56320 + (c.toNat - 65536) % 1024) ++ rest)))) =
          parseEscape ('u' :: (hex4 (55296 + (c.toNat - 65536) / 1024) ++
            ('\\' :: 'u' :: (hex4 (56320 + (c.toNat - 65536) % 1024) ++ rest)))) by
        simp [parseStringBody]]
      rw [show parseEscape ('u' :: (hex4 (55296 + (c.toNat - 65536) / 1024) ++
            ('\\' :: 'u' :: (hex4 (56320 + (c.toNat - 65536) % 1024) ++ rest)))) =
          parseUEscape (hex4 (55296 + (c.toNat - 65536) / 1024) ++
            ('\\' :: 'u' :: (hex4 (56320 + (c.toNat - 65536) % 1024) ++ rest))) by
        simp [parseEscape, escChar1]]
      exact parseUEscape_astral c (by omega) rest
  · have hge : ¬ c.toNat < 32 := by
      simp only [Bool.or_eq_true, decide_eq_true_eq, not_or] at h8
      omega
    rw [show escapeChar c = [c] by simp [escapeChar, h1, h2, h3, h4, h5, h6, h7, h8]]
    rw [List.singleton_append]
    simp only [parseStringBody, if_neg h1, if_neg h2, if_neg hge]

theorem parseStringBody_escapeList (cs : List Char) (rest : List Char) :
    parseStringBody (escapeList cs ++ '"' :: rest) = some (cs, rest) := by
  induction cs with
  | nil => simp [escapeList, parseStringBody]
  | cons c cs ih =>
    rw [show escapeList (c :: cs) = escapeChar c ++ escapeList cs from rfl,
        List.append_assoc, parseStringBody_escape, ih]
    rfl

/-! ## Lemmas: shapes of serialized documents -/

/-- The underlying character list determines the string. -/
theorem String.mk_data (s : String) : String.mk s.data = s := rfl

theorem skipWs_cons_not (c : Char) (h : isJsonWs c = false) (cs : List Char) :
    skipWs (c :: cs) = c :: cs := by
  simp [skipWs, List.dropWhile_cons, h]

theorem skipWs_cons_ws (c : Char) (h : isJsonWs c = true) (cs : List Char) :
    skipWs (c :: cs) = skipWs cs := by
  simp [skipWs, List.dropWhile_cons, h]

theorem parseVal_ws (fuel : Nat) (c : Char) (h : isJsonWs c = true) (cs : List Char) :
    parseVal fuel (c :: cs) = parseVal fuel cs := by
  cases fuel with
  | zero => rfl
  | succ f => simp only [parseVal, skipWs_cons_ws _ h]

theorem isDigitCh_props (c : Char) (h : isDigitCh c = true) :
    isJsonWs c = false ∧ c ≠ ']' ∧ c ≠ '}' ∧ c ≠ 'n' ∧ c ≠ 't' ∧ c ≠ 'f' ∧
      c ≠ '"' ∧ c ≠ '[' ∧ c ≠ '{' ∧ c ≠ '-' := by
  refine ⟨?_, fun he => absurd (he ▸ h) (by decide), fun he => absurd (he ▸ h) (by decide),
    fun he => absurd (he ▸ h) (by decide), fun he => absurd (he ▸ h) (by decide),
    fun he => absurd (he ▸ h) (by decide), fun he => absurd (he ▸ h) (by decide),
    fun he => absurd (he ▸ h) (by decide), fun he => absurd (he ▸ h) (by decide),
    fun he => absurd (he ▸ h) (by decide)⟩
  simp only [isJsonWs, Bool.or_eq_false_iff, decide_eq_false_iff_not]
  exact ⟨⟨⟨fun he => absurd (he ▸ h) (by decide), fun he => absurd (he ▸ h) (by decide)⟩,
    fun he => absurd (he ▸ h) (by decide)⟩, fun he => absurd (he ▸ h) (by decide)⟩

theorem parseDigits_natChars (n : Nat) (rest : List Char)
    (hrest : headNot isDigitCh rest) :
    parseDigits (natChars n ++ rest) = some (n, rest) := by
  have h := takeWhile_all_append isDigitCh (natChars n) rest (natChars_digits n) hrest
  simp only [parseDigits, h.1, h.2]
  rw [if_neg (natChars_ne_nil n), natChars_val]

/-- The interior of a serialized array (everything between the brackets). -/
def dumpArrInner : List Json → List Char
  | [] => []
  | e :: es => dumpChars e ++ dumpElems es

/-- The interior of a serialized object (everything between the braces). -/
def dumpObjInner : List (String × Json) → List Char
  | [] => []
  | m :: ms => dumpMember m ++ dumpMembers ms

theorem dump_arr_append (l : List Json) (X : List Char) :
    dumpChars (.arr l) ++ X = '[' :: (dumpArrInner l ++ ']' :: X) := by
  cases l <;> simp [dumpChars, dumpArrInner]

theorem dump_obj_append (l : List (String × Json)) (X : List Char) :
    dumpChars (.obj l) ++ X = '{' :: (dumpObjInner l ++ '}' :: X) := by
  cases l with
  | nil => simp [dumpChars, dumpObjInner]
  | cons m ms => obtain ⟨k, v⟩ := m; simp [dumpChars, dumpObjInner]

theorem dumpMember_append (k : String) (v : Json) (X : List Char) :
    dumpMember (k, v) ++ X =
      '"' :: (escapeList k.data ++ '"' :: ':' :: ' ' :: (dumpChars v ++ X)) := by
  simp [dumpMember, dumpStringChars]

theorem dumpStringChars_append (s : String) (X : List Char) :
    dumpStringChars s ++ X = '"' :: (escapeList s.data ++ '"' :: X) := by
  simp [dumpStringChars]

theorem dumpElems_cons_append (e : Json) (es : List Json) (X : List Char) :
    dumpElems (e :: es) ++ X = ',' :: ' ' :: (dumpChars e ++ (dumpElems es ++ X)) := by
  simp [dumpElems]

theorem dumpMembers_cons_append (m : String × Json) (ms : List (String × Json))
    (X : List Char) :
    dumpMembers (m :: ms) ++ X = ',' :: ' ' :: (dumpMember m ++ (dumpMembers ms ++ X)) := by
  simp [dumpMembers]

theorem dump_head (v : Json) :
    ∃ c cs, dumpChars v = c :: cs ∧ isJsonWs c = false ∧ c ≠ ']' ∧ c ≠ '}' := by
  cases v with
  | null => exact ⟨'n', _, rfl, by decide, by decide, by decide⟩
  | bool b =>
    cases b
    · exact ⟨'f', _, rfl, by decide, by decide, by decide⟩
    · exact ⟨'t', _, rfl, by decide, by decide, by decide⟩
  | num n =>
    by_cases hn : n < 0
    · refine ⟨'-', natChars n.natAbs, ?_, by decide, by decide, by decide⟩
      simp [dumpChars, intChars, hn]
    · rcases hc : natChars n.natAbs with _ | ⟨c, cs⟩
      · exact absurd hc (natChars_ne_nil _)
      · have hd : isDigitCh c = true := natChars_digits n.natAbs c (by rw [hc]; simp)
        obtain ⟨hws, hrb, hcb, _⟩ := isDigitCh_props c hd
        refine ⟨c, cs, ?_, hws, hrb, hcb⟩
        simp [dumpChars, intChars, hn, hc]
  | str s =>
    exact ⟨'"', escapeList s.data ++ ['"'], by simp [dumpChars, dumpStringChars],
      by decide, by decide, by decide⟩
  | arr l =>
    rcases l with _ | ⟨e, es⟩
    · exact ⟨'[', _, rfl, by decide, by decide, by decide⟩
    · exact ⟨'[', _, rfl, by decide, by decide, by decide⟩
  | obj l =>
    rcases l with _ | ⟨m, ms⟩
    · exact ⟨'{', _, rfl, by decide, by decide, by decide⟩
    · obtain ⟨k, v⟩ := m
      exact ⟨'{', _, rfl, by decide, by decide, by decide⟩

theorem headNot_elems (es : List Json) (rest : List Char) :
    headNot isDigitCh (dumpElems es ++ ']' :: rest) := by
  cases es with
  | nil =>
    simp [dumpElems, headNot]
    decide
  | cons e es =>
    simp [dumpElems, headNot]
    decide

theorem headNot_members (ms : List (String × Json)) (rest : List Char) :
    headNot isDigitCh (dumpMembers ms ++ '}' :: rest) := by
  cases ms with
  | nil =>
    simp [dumpMembers, headNot]
    decide
  | cons m ms =>
    obtain ⟨k, v⟩ := m
    simp [dumpMembers, headNot]
    decide

/-! ## Fuel accounting for the parser -/

mutual

/-- Fuel sufficient for `parseVal` on the serialization of `v`. -/
def needV : Json → Nat
  | .null => 1
  | .bool _ => 1
  | .num _ => 1
  | .str _ => 1
  | .arr l => 1 + needE l
  | .obj l => 1 + needM l

/-- Fuel sufficient for `parseArrBody` / `parseElemsRest`. -/
def needE : List Json → Nat
  | [] => 1
  | e :: es => 1 + max (needV e) (needE es)

/-- Fuel sufficient for `parseObjBody` / `parseMembersRest`. -/
def needM : List (String × Json) → Nat
  | [] => 1
  | (_, v) :: ms => 1 + max (1 + needV v) (needM ms)

end

theorem needV_pos (v : Json) : 1 ≤ needV v := by
  cases v <;> simp [needV]

theorem needE_pos (l : List Json) : 1 ≤ needE l := by
  cases l <;> simp [needE]

theorem needM_pos (l : List (String × Json)) : 1 ≤ needM l := by
  cases l with
  | nil => simp [needM]
  | cons m ms => obtain ⟨k, v⟩ := m; simp [needM]

/-! ## The parser inverts the serializer -/

theorem parse_dump_all : ∀ fuel : Nat,
    (∀ v rest, needV v ≤ fuel → headNot isDigitCh rest →
      parseVal fuel (dumpChars v ++ rest) = some (v, rest)) ∧
    (∀ l rest, needE l ≤ fuel →
      parseArrBody fuel (dumpArrInner l ++ ']' :: rest) = some (.arr l, rest)) ∧
    (∀ l rest, needE l ≤ fuel →
      parseElemsRest fuel (dumpElems l ++ ']' :: rest) = some (l, rest)) ∧
    (∀ l rest, needM l ≤ fuel →
      parseObjBody fuel (dumpObjInner l ++ '}' :: rest) = some (.obj l, rest)) ∧
    (∀ (k : String) v rest, 1 + needV v ≤ fuel → headNot isDigitCh rest →
      parseMember fuel (escapeList k.data ++ '"' :: ':' :: ' ' :: (dumpChars v ++ rest)) =
        some ((k, v), rest)) ∧
    (∀ l rest, needM l ≤ fuel →
      parseMembersRest fuel (dumpMembers l ++ '}' :: rest) = some (l, rest)) := by
  intro fuel
  induction fuel with
  | zero =>
    refine ⟨fun v _ h _ => absurd h (by have := needV_pos v; omega),
      fun l _ h => absurd h (by have := needE_pos l; omega),
      fun l _ h => absurd h (by have := needE_pos l; omega),
      fun l _ h => absurd h (by have := needM_pos l; omega),
      fun _ v _ h _ => absurd h (by have := needV_pos v; omega),
      fun l _ h => absurd h (by have := needM_pos l; omega)⟩
  | succ fuel ih =>
    obtain ⟨ihV, ihA, ihE, ihO, ihKV, ihM⟩ := ih
    refine ⟨?_, ?_, ?_, ?_, ?_, ?_⟩
    · -- parseVal
      intro v rest hf hrest
      cases v with
      | null =>
        rw [show dumpChars .null ++ rest = 'n' :: 'u' :: 'l' :: 'l' :: rest from rfl]
        simp only [parseVal, skipWs_cons_not 'n' (by decide)]
        simp [expect3]
      | bool b =>
        cases b
        · rw [show dumpChars (.bool false) ++ rest =
              'f' :: 'a' :: 'l' :: 's' :: 'e' :: rest from rfl]
          simp only [parseVal, skipWs_cons_not 'f' (by decide)]
          simp [expect4]
        · rw [show dumpChars (.bool true) ++ rest =
              't' :: 'r' :: 'u' :: 'e' :: rest from rfl]
          simp only [parseVal, skipWs_cons_not 't' (by decide)]
          simp [expect3]
      | num n =>
        by_cases hn : n < 0
        · rw [show dumpChars (.num n) ++ rest = '-' :: (natChars n.natAbs ++ rest) by
            simp [dumpChars, intChars, hn]]
          simp only [parseVal, skipWs_cons_not '-' (by decide)]
          simp only [reduceIte, if_neg (by decide : ¬('-' : Char) = 'n'),
            if_neg (by decide : ¬('-' : Char) = 't'),
            if_neg (by decide : ¬('-' : Char) = 'f'),
            if_neg (by decide : ¬('-' : Char) = '"'),
            if_neg (by decide : ¬('-' : Char) = '['),
            if_neg (by decide : ¬('-' : Char) = '{'),
            if_pos (rfl : ('-' : Char) = '-')]
          rw [parseDigits_natChars n.natAbs rest hrest]
          show some (Json.num (-((n.natAbs : Nat) : Int)), rest) = some (.num n, rest)
          rw [show -((n.natAbs : Nat) : Int) = n by omega]
        · rcases hc : natChars n.natAbs with _ | ⟨c, cs⟩
          · exact absurd hc (natChars_ne_nil _)
          have hd : isDigitCh c = true := natChars_digits n.natAbs c (by rw [hc]; simp)
          obtain ⟨hws, _, _, hn', ht', hf', hq', hlb', hcb', hmn'⟩ := isDigitCh_props c hd
          rw [show dumpChars (.num n) ++ rest = c :: (cs ++ rest) by
            simp [dumpChars, intChars, hn, hc]]
          simp only [parseVal, skipWs_cons_not c hws]
          rw [if_neg hn', if_neg ht', if_neg hf', if_neg hq', if_neg hlb', if_neg hcb',
            if_neg hmn']
          rw [show c :: (cs ++ rest) = natChars n.natAbs ++ rest by rw [hc]; simp]
          rw [parseDigits_natChars n.natAbs rest hrest]
          show some (Json.num ((n.natAbs : Nat) : Int), rest) = some (.num n, rest)
          rw [show ((n.natAbs : Nat) : Int) = n by omega]
      | str s =>
        rw [show dumpChars (.str s) = dumpStringChars s from rfl, dumpStringChars_append]
        simp only [parseVal, skipWs_cons_not '"' (by decide)]
        simp only [if_neg (by decide : ¬('"' : Char) = 'n'),
          if_neg (by decide : ¬('"' : Char) = 't'),
          if_neg (by decide : ¬('"' : Char) = 'f'),
          if_pos (rfl : ('"' : Char) = '"')]
        rw [parseStringBody_escapeList]
        simp [String.mk_data]
      | arr l =>
        rw [dump_arr_append]
        simp only [parseVal, skipWs_cons_not '[' (by decide)]
        simp only [if_neg (by decide : ¬('[' : Char) = 'n'),
          if_neg (by decide : ¬('[' : Char) = 't'),
          if_neg (by decide : ¬('[' : Char) = 'f'),
          if_neg (by decide : ¬('[' : Char) = '"'),
          if_pos (rfl : ('[' : Char) = '[')]
        exact ihA l rest (by simp only [needV] at hf; omega)
      | obj l =>
        rw [dump_obj_append]
        simp only [parseVal, skipWs_cons_not '{' (by decide)]
        simp only [if_neg (by decide : ¬('{' : Char) = 'n'),
          if_neg (by decide : ¬('{' : Char) = 't'),
          if_neg (by decide : ¬('{' : Char) = 'f'),
          if_neg (by decide : ¬('{' : Char) = '"'),
          if_neg (by decide : ¬('{' : Char) = '['),
          if_pos (rfl : ('{' : Char) = '{')]
        exact ihO l rest (by simp only [needV] at hf; omega)
    · -- parseArrBody
      intro l rest hf
      cases l with
      | nil =>
        simp only [dumpArrInner, List.nil_append, parseArrBody,
          skipWs_cons_not ']' (by decide)]
        simp
      | cons e es =>
        have hm : needV e ≤ fuel ∧ needE es ≤ fuel := by
          have h' : 1 + max (needV e) (needE es) ≤ fuel + 1 := by
            simpa [needE] using hf
          constructor
          · have := le_max_left (needV e) (needE es); omega
          · have := le_max_right (needV e) (needE es); omega
        obtain ⟨c, cs, hdump, hws, hrb, hcb⟩ := dump_head e
        rw [show dumpArrInner (e :: es) ++ ']' :: rest =
            c :: (cs ++ (dumpElems es ++ ']' :: rest)) by
          simp [dumpArrInner, hdump]]
        simp only [parseArrBody, skipWs_cons_not c hws]
        rw [if_neg hrb]
        rw [show c :: (cs ++ (dumpElems es ++ ']' :: rest)) =
            dumpChars e ++ (dumpElems es ++ ']' :: rest) by rw [hdump]; simp]
        simp only [ihV e _ hm.1 (headNot_elems es rest), ihE es rest hm.2]
    · -- parseElemsRest
      intro l rest hf
      cases l with
      | nil =>
        simp only [dumpElems, List.nil_append, parseElemsRest,
          skipWs_cons_not ']' (by decide)]
        simp
      | cons e es =>
        have hm : needV e ≤ fuel ∧ needE es ≤ fuel := by
          have h' : 1 + max (needV e) (needE es) ≤ fuel + 1 := by
            simpa [needE] using hf
          constructor
          · have := le_max_left (needV e) (needE es); omega
          · have := le_max_right (needV e) (needE es); omega
        rw [dumpElems_cons_append]
        simp only [parseElemsRest, skipWs_cons_not ',' (by decide)]
        simp only [if_neg (by decide : ¬(',' : Char) = ']'),
          if_pos (rfl : (',' : Char) = ',')]
        rw [parseVal_ws fuel ' ' (by decide)]
        simp only [ihV e _ hm.1 (headNot_elems es rest), ihE es rest hm.2]
        simp
    · -- parseObjBody
      intro l rest hf
      cases l with
      | nil =>
        simp only [dumpObjInner, List.nil_append, parseObjBody,
          skipWs_cons_not '}' (by decide)]
        simp
      | cons m ms =>
        obtain ⟨k, v⟩ := m
        have hm : 1 + needV v ≤ fuel ∧ needM ms ≤ fuel := by
          have h' : 1 + max (1 + needV v) (needM ms) ≤ fuel + 1 := by
            simpa [needM] using hf
          constructor
          · have := le_max_left (1 + needV v) (needM ms); omega
          · have := le_max_right (1 + needV v) (needM ms); omega
        rw [show dumpObjInner ((k, v) :: ms) ++ '}' :: rest =
            dumpMember (k, v) ++ (dumpMembers ms ++ '}' :: rest) by
          simp [dumpObjInner]]
        rw [dumpMember_append]
        simp only [parseObjBody, skipWs_cons_not '"' (by decide)]
        simp only [if_neg (by decide : ¬('"' : Char) = '}'),
          if_pos (rfl : ('"' : Char) = '"')]
        simp only [ihKV k v _ hm.1 (headNot_members ms rest), ihM ms rest hm.2]
        simp
    · -- parseMember
      intro k v rest hf hrest
      simp only [parseMember, parseStringBody_escapeList, skipWs_cons_not ':' (by decide),
        if_pos (rfl : (':' : Char) = ':'), parseVal_ws fuel ' ' (by decide),
        ihV v rest (by omega : needV v ≤ fuel) hrest, String.mk_data]
      simp
    · -- parseMembersRest
      intro l rest hf
      cases l with
      | nil =>
        simp only [dumpMembers, List.nil_append, parseMembersRest,
          skipWs_cons_not '}' (by decide)]
        simp
      | cons m ms =>
        obtain ⟨k, v⟩ := m
        have hm : 1 + needV v ≤ fuel ∧ needM ms ≤ fuel := by
          have h' : 1 + max (1 + needV v) (needM ms) ≤ fuel + 1 := by
            simpa [needM] using hf
          constructor
          · have := le_max_left (1 + needV v) (needM ms); omega
          · have := le_max_right (1 + needV v) (needM ms); omega
        rw [dumpMembers_cons_append]
        simp only [parseMembersRest, skipWs_cons_not ',' (by decide)]
        simp only [if_neg (by decide : ¬(',' : Char) = '}'),
          if_pos (rfl : (',' : Char) = ',')]
        rw [skipWs_cons_ws ' ' (by decide), dumpMember_append,
          skipWs_cons_not '"' (by decide)]
        simp only [if_pos (rfl : ('"' : Char) = '"')]
        simp only [ihKV k v _ hm.1 (headNot_members ms rest), ihM ms rest hm.2]
        simp

theorem dump_len_pos (v : Json) : 1 ≤ (dumpChars v).length := by
  obtain ⟨c, cs, hdump, -⟩ := dump_head v
  rw [hdump]
  simp

theorem needV_le_dump (v : Json) : needV v ≤ (dumpChars v).length := by
  refine Json.indV (P := fun v => needV v ≤ (dumpChars v).length)
    (Q := fun l => needE l ≤ (dumpElems l).length + 1 ∧
      needV (.arr l) ≤ (dumpChars (.arr l)).length)
    (R := fun l => needM l ≤ (dumpMembers l).length + 1 ∧
      needV (.obj l) ≤ (dumpChars (.obj l)).length)
    ?_ ?_ ?_ ?_ ?_ ?_ ?_ ?_ ?_ ?_ v
  · simp [needV, dumpChars]
  · intro b; cases b <;> simp [needV, dumpChars]
  · intro n
    have := dump_len_pos (.num n)
    simp only [needV]
    omega
  · intro s
    have := dump_len_pos (.str s)
    simp only [needV]
    omega
  · exact fun l h => h.2
  · exact fun l h => h.2
  · constructor <;> simp [needE, needV, dumpElems, dumpChars]
  · intro e es hP hQ
    obtain ⟨hQ1, hQ2⟩ := hQ
    have hd1 := dump_len_pos e
    constructor
    · have hmax : max (needV e) (needE es) ≤
          (dumpChars e).length + ((dumpElems es).length + 1) :=
        max_le (by omega) (by omega)
      simp only [needE, dumpElems, List.length_cons, List.length_append]
      omega
    · have hmax : max (needV e) (needE es) ≤
          (dumpChars e).length + (dumpElems es).length :=
        max_le (by omega) (by omega)
      simp only [needV, needE, dumpChars, List.length_cons, List.length_append]
      omega
  · constructor <;> simp [needM, needV, dumpMembers, dumpChars]
  · intro k v ms hP hR
    obtain ⟨hR1, hR2⟩ := hR
    have hmem : (dumpMember (k, v)).length = (dumpStringChars k).length + 2 +
        (dumpChars v).length := by
      simp [dumpMember]
      omega
    have hstr2 : 2 ≤ (dumpStringChars k).length := by
      simp [dumpStringChars]
    constructor
    · have hmax : max (1 + needV v) (needM ms) ≤
          (dumpMember (k, v)).length + ((dumpMembers ms).length + 1) :=
        max_le (by omega) (by omega)
      simp only [needM, dumpMembers, List.length_cons, List.length_append]
      omega
    · have hmax : max (1 + needV v) (needM ms) ≤
          (dumpMember (k, v)).length + (dumpMembers ms).length :=
        max_le (by omega) (by omega)
      simp only [needV, needM, dumpChars, List.length_cons, List.length_append]
      omega

/-- `json.loads` is a left inverse of `json.dump` on JSON documents. -/
theorem json_loads_dump (v : Json) : json_loads (dumpChars v) = some v := by
  have h : parseVal ((dumpChars v).length + 1) (dumpChars v ++ []) = some (v, []) :=
    (parse_dump_all _).1 v [] (by have := needV_le_dump v; omega) trivial
  rw [List.append_nil] at h
  simp only [json_loads, h]
  simp [skipWs]

/-! ## The serializer emits no newline -/

theorem hexChar_ne_nl : ∀ m, m < 16 → ¬ hexChar m = '\n' := by decide

theorem escapeChar_no_nl (c : Char) : '\n' ∉ escapeChar c := by
  unfold escapeChar
  split_ifs with h1 h2 h3 h4 h5 h6 h7 h8 h9
  · decide
  · decide
  · decide
  · decide
  · decide
  · decide
  · decide
  · simp only [uEscape4, hex4, List.mem_cons, List.mem_singleton]
    push_neg
    refine ⟨by decide, by decide, ?_, ?_, ?_, ?_, by simp⟩
    all_goals exact fun he => hexChar_ne_nl _ (by omega) he.symm
  · simp only [uEscape4, hex4, List.cons_append, List.nil_append, List.mem_cons,
      List.mem_singleton]
    push_neg
    refine ⟨by decide, by decide, ?_, ?_, ?_, ?_, by decide, by decide, ?_, ?_, ?_, ?_,
      by simp⟩
    all_goals exact fun he => hexChar_ne_nl _ (by omega) he.symm
  · have hge : ¬ c.toNat < 32 := by
      simp only [Bool.or_eq_true, decide_eq_true_eq, not_or] at h8
      omega
    simp only [List.mem_singleton]
    intro he
    rw [← he] at hge
    exact hge (by decide)

theorem escapeList_no_nl (cs : List Char) : '\n' ∉ escapeList cs := by
  induction cs with
  | nil => simp [escapeList]
  | cons c cs ih =>
    rw [show escapeList (c :: cs) = escapeChar c ++ escapeList cs from rfl]
    simp only [List.mem_append]
    rintro (h | h)
    · exact escapeChar_no_nl c h
    · exact ih h

theorem natChars_no_nl (n : Nat) : '\n' ∉ natChars n := by
  intro h
  have := natChars_digits n '\n' h
  exact absurd this (by decide)

theorem dumpStringChars_no_nl (s : String) : '\n' ∉ dumpStringChars s := by
  simp [dumpStringChars, escapeList_no_nl s.data]

theorem dumpMember_no_nl (k : String) (v : Json) (hv : '\n' ∉ dumpChars v) :
    '\n' ∉ dumpMember (k, v) := by
  simp [dumpMember, dumpStringChars_no_nl k, hv]

theorem dump_no_nl (v : Json) : '\n' ∉ dumpChars v := by
  refine Json.indV (P := fun v => '\n' ∉ dumpChars v)
    (Q := fun l => '\n' ∉ dumpElems l)
    (R := fun l => '\n' ∉ dumpMembers l)
    ?_ ?_ ?_ ?_ ?_ ?_ ?_ ?_ ?_ ?_ v
  · decide
  · intro b; cases b <;> decide
  · intro n
    simp only [dumpChars, intChars]
    split_ifs
    · simp only [List.mem_cons]
      rintro (h | h)
      · exact absurd h (by decide)
      · exact natChars_no_nl _ h
    · exact natChars_no_nl _
  · intro s
    exact dumpStringChars_no_nl s
  · intro l hQ
    cases l with
    | nil => decide
    | cons e es =>
      have h1 : '\n' ∉ dumpChars e := fun h =>
        hQ (by simp [dumpElems, List.mem_cons, List.mem_append, h])
      have h2 : '\n' ∉ dumpElems es := fun h =>
        hQ (by simp [dumpElems, List.mem_cons, List.mem_append, h])
      simp [dumpChars, h1, h2]
  · intro l hR
    cases l with
    | nil => decide
    | cons m ms =>
      obtain ⟨k, v⟩ := m
      have h1 : '\n' ∉ dumpMember (k, v) := fun h =>
        hR (by simp [dumpMembers, List.mem_cons, List.mem_append, h])
      have h2 : '\n' ∉ dumpMembers ms := fun h =>
        hR (by simp [dumpMembers, List.mem_cons, List.mem_append, h])
      simp [dumpChars, h1, h2]
  · simp [dumpElems]
  · intro e es hP hQ
    simp [dumpElems, hP, hQ]
  · simp [dumpMembers]
  · intro k v ms hP hR
    simp [dumpMembers, dumpMember_no_nl k v hP, hR]

/-! ## Lemmas: line splitting and stripping -/

theorem splitNL_ne_nil (cs : List Char) : splitNL cs ≠ [] := by
  cases cs with
  | nil => simp [splitNL]
  | cons c cs =>
    simp only [splitNL]
    rcases splitNL cs with _ | ⟨l, ls⟩
    · simp
    · split_ifs <;> simp

theorem splitNL_append_nl (xs ys : List Char) (h : '\n' ∉ xs) :
    splitNL (xs ++ '\n' :: ys) = xs :: splitNL ys := by
  induction xs with
  | nil =>
    simp only [List.nil_append, splitNL]
    rcases hys : splitNL ys with _ | ⟨l, ls⟩
    · exact absurd hys (splitNL_ne_nil ys)
    · simp
  | cons x xs ih =>
    have hx : x ≠ '\n' := fun he => h (by simp [he])
    have hxs : '\n' ∉ xs := fun hm => h (by simp [hm])
    simp only [List.cons_append, splitNL, List.append_eq]
    rw [ih hxs]
    simp [hx]

theorem splitNL_of_no_nl (xs : List Char) (h : '\n' ∉ xs) : splitNL xs = [xs] := by
  induction xs with
  | nil => rfl
  | cons x xs ih =>
    have hx : x ≠ '\n' := fun he => h (by simp [he])
    have hxs : '\n' ∉ xs := fun hm => h (by simp [hm])
    simp only [splitNL, ih hxs]
    simp [hx]

/-- The last line of a sequence of lines. -/
def lastLine : List (List Char) → List Char
  | [] => []
  | [l] => l
  | _ :: ls => lastLine ls

/-- The list starts with a non-whitespace character (so in particular it
is nonempty). -/
def headNoPyWs : List Char → Prop
  | [] => False
  | c :: _ => isPyWs c = false

theorem splitNL_joinNL (ls : List (List Char)) (hne : ls ≠ [])
    (hnl : ∀ l ∈ ls, '\n' ∉ l) :
    splitNL (joinNL ls) = ls := by
  induction ls with
  | nil => exact absurd rfl hne
  | cons l ls ih =>
    cases ls with
    | nil => exact splitNL_of_no_nl l (hnl l (by simp))
    | cons l2 ls2 =>
      rw [show joinNL (l :: l2 :: ls2) = l ++ '\n' :: joinNL (l2 :: ls2) from rfl]
      rw [splitNL_append_nl _ _ (hnl l (by simp))]
      rw [ih (by simp) (fun x hx => hnl x (by simp [hx]))]

theorem joinNL_head (ls : List (List Char)) (hne : ls ≠ [])
    (h : headNoPyWs (ls.headD [])) :
    ∃ c cs, joinNL ls = c :: cs ∧ isPyWs c = false := by
  cases ls with
  | nil => exact absurd rfl hne
  | cons l ls =>
    rcases l with _ | ⟨c, cs⟩
    · exact absurd h (by simp [headNoPyWs])
    · simp only [List.headD_cons, headNoPyWs] at h
      cases ls with
      | nil => exact ⟨c, cs, rfl, h⟩
      | cons l2 ls2 =>
        exact ⟨c, cs ++ '\n' :: joinNL (l2 :: ls2), rfl, h⟩

theorem joinNL_rev_head (ls : List (List Char)) (hne : ls ≠ [])
    (h : headNoPyWs (lastLine ls).reverse) :
    ∃ c cs, (joinNL ls).reverse = c :: cs ∧ isPyWs c = false := by
  induction ls with
  | nil => exact absurd rfl hne
  | cons l ls ih =>
    cases ls with
    | nil =>
      rcases hrev : l.reverse with _ | ⟨c, cs⟩
      · rw [show lastLine [l] = l from rfl, hrev] at h
        exact absurd h (by simp [headNoPyWs])
      · rw [show lastLine [l] = l from rfl, hrev] at h
        exact ⟨c, cs, by rw [show joinNL [l] = l from rfl, hrev], h⟩
    | cons l2 ls2 =>
      obtain ⟨c, cs, hjoin, hc⟩ := ih (by simp)
        (by rw [show lastLine (l :: l2 :: ls2) = lastLine (l2 :: ls2) from rfl] at h; exact h)
      refine ⟨c, cs ++ ('\n' :: l.reverse), ?_, hc⟩
      rw [show joinNL (l :: l2 :: ls2) = l ++ '\n' :: joinNL (l2 :: ls2) from rfl]
      rw [List.reverse_append, List.reverse_cons, hjoin]
      simp

theorem pyStrip_joinNL (ls : List (List Char)) (hne : ls ≠ [])
    (hfst : headNoPyWs (ls.headD []))
    (hlst : headNoPyWs (lastLine ls).reverse) :
    pyStrip (joinNL ls) = joinNL ls := by
  obtain ⟨c, cs, hj, hc⟩ := joinNL_head ls hne hfst
  obtain ⟨d, ds, hr, hd⟩ := joinNL_rev_head ls hne hlst
  unfold pyStrip
  rw [hj, List.dropWhile_cons_of_neg (by simp [hc]), ← hj, hr,
    List.dropWhile_cons_of_neg (by simp [hd]), ← hr, List.reverse_reverse]

theorem json_loads_nil : json_loads [] = none := rfl

theorem filterMap_skip_empty (ls : List (List Char)) :
    ls.filterMap (fun line => if line = [] then none else json_loads line) =
      ls.filterMap json_loads := by
  apply List.filterMap_congr
  intro l _
  by_cases h : l = []
  · subst h
    simp [json_loads_nil]
  · simp [h]

/-! ## Lemmas: the normalizer -/

theorem dictGet_miss (fields : List (String × Json)) (key : String) (d : Json)
    (h : ∀ kv ∈ fields, kv.1 ≠ key) : dictGet fields key d = d := by
  have haux : ∀ (fs : List (String × Json)) (acc : Option Json),
      (∀ kv ∈ fs, kv.1 ≠ key) →
      fs.foldl (fun acc kv => if kv.1 = key then some kv.2 else acc) acc = acc := by
    intro fs
    induction fs with
    | nil => intro acc _; rfl
    | cons kv rest ih =>
      intro acc hmiss
      simp only [List.foldl_cons, if_neg (hmiss kv (by simp))]
      exact ih acc (fun kv2 h2 => hmiss kv2 (by simp [h2]))
  simp only [dictGet, haux fields none h]

/-- The LogEntry produced for a journal document with none of the five
recognized keys. -/
def defaultEvent (timestamp : String) : Json :=
  .obj [("timestamp", .str timestamp), ("message", .str ""), ("priority", .str "6"),
        ("unit", .str "tailscaled"), ("hostname", .str "unknown")]

theorem format_event_keyless (ts : String) (fields : List (String × Json))
    (h : ∀ kv ∈ fields, kv.1 ∉ recognizedKeys) :
    format_event ts (.obj fields) = .ok (defaultEvent ts) := by
  have hmiss : ∀ key ∈ recognizedKeys, ∀ kv ∈ fields, kv.1 ≠ key := by
    intro key hkey kv hkv he
    exact h kv hkv (he ▸ hkey)
  simp only [format_event, defaultEvent,
    dictGet_miss fields "__REALTIME_TIMESTAMP" _ (hmiss _ (by decide)),
    dictGet_miss fields "MESSAGE" _ (hmiss _ (by decide)),
    dictGet_miss fields "PRIORITY" _ (hmiss _ (by decide)),
    dictGet_miss fields "_SYSTEMD_UNIT" _ (hmiss _ (by decide)),
    dictGet_miss fields "_HOSTNAME" _ (hmiss _ (by decide))]

theorem format_events_length (ts : String) (logs : List Json) (evs : List Json)
    (h : format_events ts logs = .ok evs) : evs.length = logs.length := by
  induction logs generalizing evs with
  | nil =>
    simp only [format_events] at h
    cases h
    rfl
  | cons l ls ih =>
    simp only [format_events] at h
    rcases hfe : format_event ts l with e | ev <;> rw [hfe] at h
    · cases h
    · rcases hfes : format_events ts ls with e | evs2 <;> rw [hfes] at h
      · cases h
      · cases h
        simp [ih evs2 hfes]

theorem format_events_get (ts : String) (logs : List Json) (evs : List Json)
    (h : format_events ts logs = .ok evs) :
    ∀ i (hi : i < logs.length) (hj : i < evs.length),
      format_event ts (logs.get ⟨i, hi⟩) = .ok (evs.get ⟨i, hj⟩) := by
  induction logs generalizing evs with
  | nil => intro i hi; simp at hi
  | cons l ls ih =>
    simp only [format_events] at h
    rcases hfe : format_event ts l with e | ev <;> rw [hfe] at h
    · cases h
    · rcases hfes : format_events ts ls with e | evs2 <;> rw [hfes] at h
      · cases h
      · cases h
        intro i hi hj
        cases i with
        | zero => simpa using hfe
        | succ i =>
          exact ih evs2 hfes i (by simpa using hi) (by simpa using hj)

theorem format_events_ok (ts : String) (logs : List Json)
    (h : ∀ l ∈ logs, l.isObj = true) :
    ∃ evs, format_events ts logs = .ok evs := by
  induction logs with
  | nil => exact ⟨[], rfl⟩
  | cons l ls ih =>
    obtain ⟨evs, hevs⟩ := ih (fun x hx => h x (by simp [hx]))
    have hobj := h l (by simp)
    rcases l with _ | _ | _ | _ | _ | fields <;> simp [Json.isObj] at hobj
    exact ⟨Json.obj [("timestamp", dictGet fields "__REALTIME_TIMESTAMP" (.str ts)),
        ("message", dictGet fields "MESSAGE" (.str "")),
        ("priority", dictGet fields "PRIORITY" (.str "6")),
        ("unit", dictGet fields "_SYSTEMD_UNIT" (.str "tailscaled")),
        ("hostname", dictGet fields "_HOSTNAME" (.str "unknown"))] :: evs,
      by simp only [format_events, format_event, hevs]⟩

/-! ## The claims -/

/-- C1: For every status document and every sequence of raw log documents
(key-value documents, per the data model), the Normalizer
`format_for_wazuh` produces exactly one CollectionRecord whose `events`
list has the same length as the input log-document sequence and whose
`status` field is exactly the input status document, unmodified. -/
theorem C1_normalizer_record (ts : String) (status : Json) (logs : List Json)
    (hobjs : ∀ l ∈ logs, l.isObj = true) :
    ∃ evs, format_for_wazuh ts status logs = .ok (mkRecord ts status evs) ∧
      evs.length = logs.length ∧
      getField (mkRecord ts status evs) "events" = some (.arr evs) ∧
      getField (mkRecord ts status evs) "status" = some status := by
  obtain ⟨evs, hevs⟩ := format_events_ok ts logs hobjs
  refine ⟨evs, ?_, format_events_length ts logs evs hevs, ?_, ?_⟩
  · simp [format_for_wazuh, hevs, Except.map]
  · simp [getField, mkRecord, List.find?]
  · simp [getField, mkRecord, List.find?]

/-- Witness for C1 at a concrete input: one log document, a nonempty
status object. -/
theorem C1_normalizer_record_witness :
    ∃ evs, format_for_wazuh "T" (Json.obj [("Self", Json.bool true)]) [Json.obj []] =
        .ok (mkRecord "T" (Json.obj [("Self", Json.bool true)]) evs) ∧
      evs.length = ([Json.obj []] : List Json).length ∧
      getField (mkRecord "T" (Json.obj [("Self", Json.bool true)]) evs) "events" =
        some (.arr evs) ∧
      getField (mkRecord "T" (Json.obj [("Self", Json.bool true)]) evs) "status" =
        some (Json.obj [("Self", Json.bool true)]) :=
  C1_normalizer_record "T" _ _ (by decide)

/-- C2: Two `save_logs` calls in sequence on a fresh target path yield a
file of exactly two newline-terminated lines, each line independently
parseable as a JSON object, and the byte content after the first append
is an exact prefix of the byte content after the second (existing bytes
are never truncated or rewritten). -/
theorem C2_append_two_records (ts1 ts2 : String) (s1 s2 : Json)
    (e1 e2 : List Json) :
    ∃ c1 c2,
      (save_logs true none (mkRecord ts1 s1 e1)).1 = some c1 ∧
      (save_logs true (some c1) (mkRecord ts2 s2 e2)).1 = some c2 ∧
      c1 = dumpChars (mkRecord ts1 s1 e1) ++ ['\n'] ∧
      c2 = c1 ++ (dumpChars (mkRecord ts2 s2 e2) ++ ['\n']) ∧
      '\n' ∉ dumpChars (mkRecord ts1 s1 e1) ∧
      '\n' ∉ dumpChars (mkRecord ts2 s2 e2) ∧
      splitNL c2 =
        [dumpChars (mkRecord ts1 s1 e1), dumpChars (mkRecord ts2 s2 e2), []] ∧
      json_loads (dumpChars (mkRecord ts1 s1 e1)) = some (mkRecord ts1 s1 e1) ∧
      json_loads (dumpChars (mkRecord ts2 s2 e2)) = some (mkRecord ts2 s2 e2) ∧
      (mkRecord ts1 s1 e1).isObj = true ∧ (mkRecord ts2 s2 e2).isObj = true := by
  refine ⟨dumpChars (mkRecord ts1 s1 e1) ++ ['\n'],
    (dumpChars (mkRecord ts1 s1 e1) ++ ['\n']) ++
      (dumpChars (mkRecord ts2 s2 e2) ++ ['\n']),
    by simp [save_logs], by simp [save_logs], rfl, rfl,
    dump_no_nl _, dump_no_nl _, ?_, json_loads_dump _, json_loads_dump _, rfl, rfl⟩
  have hshape : (dumpChars (mkRecord ts1 s1 e1) ++ ['\n']) ++
      (dumpChars (mkRecord ts2 s2 e2) ++ ['\n']) =
      dumpChars (mkRecord ts1 s1 e1) ++
        '\n' :: (dumpChars (mkRecord ts2 s2 e2) ++ '\n' :: []) := by
    simp
  rw [hshape, splitNL_append_nl _ _ (dump_no_nl _), splitNL_append_nl _ _ (dump_no_nl _)]
  rfl

/-- C3 counterexample: `save_logs` writes the Python `json.dump` default
rendering, which inserts a space after every comma and colon, so at this
concrete record the appended line is not the most compact JSON text. -/
theorem C3_counterexample :
    (save_logs true none (mkRecord "T" (.obj [("ok", .bool true)]) [])).1 =
      some (dumpChars (mkRecord "T" (.obj [("ok", .bool true)]) []) ++ ['\n']) ∧
    (save_logs true none (mkRecord "T" (.obj [("ok", .bool true)]) [])).1 ≠
      some (compactChars (mkRecord "T" (.obj [("ok", .bool true)]) []) ++ ['\n']) := by
  constructor
  · rfl
  · decide

/-- C3 amended: for every record, the Appender `save_logs` appends the
record serialized on a single line (no newline anywhere in the
serialization, hence no indentation) with Python's default separators —
a space after each comma and colon — followed by exactly one newline
character. -/
theorem C3_amended_append_single_line (file : Option (List Char)) (r : Json) :
    save_logs true file r = (some ((file.getD []) ++ dumpChars r ++ ['\n']), true) ∧
    '\n' ∉ dumpChars r :=
  ⟨by simp [save_logs], dump_no_nl r⟩

/-- C4 counterexample: on standard output that is not valid JSON,
`get_tailscale_status` does raise — the `json.loads` decode error is not
caught — rather than returning `None`. -/
theorem C4_counterexample :
    get_tailscale_status (.ran 0 ("not json".data)) = .error .jsonDecodeError ∧
    get_tailscale_status (.ran 0 ("not json".data)) ≠ .ok none := by
  constructor
  · rfl
  · intro h
    cases h

/-- C4 amended: when the status command's output is not valid JSON,
`get_tailscale_status` raises an uncaught `json.JSONDecodeError` (fatal
to the process); only the tool-absent and nonzero-exit failure modes are
caught and treated as "no status" (`None`). -/
theorem C4_amended_malformed_raises (out : List Char) (h : json_loads out = none) :
    get_tailscale_status (.ran 0 out) = .error .jsonDecodeError ∧
    get_tailscale_status .absent = .ok none ∧
    (∀ code out2, code ≠ 0 → get_tailscale_status (.ran code out2) = .ok none) := by
  refine ⟨?_, rfl, ?_⟩
  · simp [get_tailscale_status, h]
  · intro code out2 hc
    simp [get_tailscale_status, hc]

/-- Witness for C4 at a concrete malformed output. -/
theorem C4_amended_malformed_raises_witness :
    get_tailscale_status (.ran 0 ("not json".data)) = .error .jsonDecodeError ∧
    get_tailscale_status .absent = .ok none ∧
    (∀ code out2, code ≠ 0 → get_tailscale_status (.ran code out2) = .ok none) :=
  C4_amended_malformed_raises ("not json".data) (by decide)

/-- C5: whenever status retrieval does not return a snapshot, `collect`
short-circuits: the target file is byte-for-byte unchanged (or still
absent), and the run does not depend on the log command at all (no log
retrieval, no record, no write). -/
theorem C5_status_failure_short_circuits (statusCmd logCmd logCmd2 : CmdOutcome)
    (w : Bool) (ts : String) (file : Option (List Char))
    (h : ∀ v, get_tailscale_status statusCmd ≠ .ok (some v)) :
    (collect statusCmd logCmd w ts file).1 = file ∧
    collect statusCmd logCmd w ts file = collect statusCmd logCmd2 w ts file := by
  rcases hg : get_tailscale_status statusCmd with e | os
  · simp [collect, hg]
  · rcases os with _ | v
    · simp [collect, hg]
    · exact absurd hg (h v)

/-- Witness for C5: the status tool is absent; the file stays absent and
the log command is irrelevant. -/
theorem C5_status_failure_short_circuits_witness :
    (collect .absent (.ran 0 ("{}".data)) true "T" none).1 = none ∧
    collect .absent (.ran 0 ("{}".data)) true "T" none =
      collect .absent .absent true "T" none :=
  C5_status_failure_short_circuits .absent (.ran 0 ("{}".data)) .absent true "T" none
    (by intro v h; simp [get_tailscale_status] at h)

/-- C6: when the log source fails (tool absent or nonzero exit) while the
status source succeeds with a truthy snapshot, `get_system_logs` returns
the empty sequence and a CollectionRecord with `events = []` is still
persisted (appended to the file). -/
theorem C6_log_failure_still_persists (sout : List Char) (v : Json)
    (logCmd : CmdOutcome) (ts : String) (file : Option (List Char))
    (hv : json_loads sout = some v) (ht : v.pyTruthy = true)
    (hfail : logCmd = .absent ∨ ∃ c out2, c ≠ 0 ∧ logCmd = .ran c out2) :
    get_system_logs logCmd = [] ∧
    collect (.ran 0 sout) logCmd true ts file =
      (some ((file.getD []) ++ dumpChars (mkRecord ts v []) ++ ['\n']), none) := by
  have hlogs : get_system_logs logCmd = [] := by
    rcases hfail with h | ⟨c, out2, hc, h⟩
    · subst h; rfl
    · subst h; simp [get_system_logs, hc]
  have hst : get_tailscale_status (.ran 0 sout) = .ok (some v) := by
    simp [get_tailscale_status, hv]
  refine ⟨hlogs, ?_⟩
  simp [collect, hst, ht, hlogs, format_for_wazuh, format_events, save_logs, Except.map]

/-- Witness for C6: status output `true` (truthy), log tool absent. -/
theorem C6_log_failure_still_persists_witness :
    get_system_logs .absent = [] ∧
    collect (.ran 0 ("true".data)) .absent true "T" none =
      (some (((none : Option (List Char)).getD []) ++
        dumpChars (mkRecord "T" (.bool true) []) ++ ['\n']), none) :=
  C6_log_failure_still_persists ("true".data) (.bool true) .absent "T" none
    (by decide) (by decide) (Or.inl rfl)

/-- C7: for a log-command standard output made of newline-separated
lines, every line that fails to parse as JSON is silently skipped without
aborting the others, and `get_system_logs` returns exactly the
successfully parsed lines in their original relative order. -/
theorem C7_per_line_skip (ls : List (List Char))
    (hnl : ∀ l ∈ ls, '\n' ∉ l) (hne : ls ≠ [])
    (hfst : headNoPyWs (ls.headD []))
    (hlst : headNoPyWs (lastLine ls).reverse) :
    get_system_logs (.ran 0 (joinNL ls)) = ls.filterMap json_loads := by
  have h0 : get_system_logs (.ran 0 (joinNL ls)) =
      (splitNL (pyStrip (joinNL ls))).filterMap
        (fun line => if line = [] then none else json_loads line) := by
    simp [get_system_logs]
  rw [h0, pyStrip_joinNL ls hne hfst hlst, splitNL_joinNL ls hne hnl,
    filterMap_skip_empty]

/-- Witness for C7: three valid lines interleaved with one garbage line
yield exactly the three parsed entries, in order. -/
theorem C7_per_line_skip_witness :
    get_system_logs (.ran 0 (joinNL ["1".data, "nope".data, "true".data, "{}".data])) =
      (["1".data, "nope".data, "true".data, "{}".data].filterMap json_loads) ∧
    (["1".data, "nope".data, "true".data, "{}".data].filterMap json_loads) =
      [Json.num 1, Json.bool true, Json.obj []] :=
  ⟨C7_per_line_skip ["1".data, "nope".data, "true".data, "{}".data]
    (by decide) (by decide) (by show isPyWs '1' = false; decide)
    (by show isPyWs '}' = false; decide), by decide⟩

/-- C8: a raw log document containing none of the five recognized keys is
normalized to the all-defaults LogEntry — empty message, priority "6",
unit "tailscaled", hostname "unknown" — whose timestamp is the record's
single collection timestamp (generated once per invocation and reused). -/
theorem C8_keyless_defaults (ts : String) (status : Json) (logs : List Json)
    (r : Json) (hr : format_for_wazuh ts status logs = .ok r)
    (i : Nat) (hi : i < logs.length) (fields : List (String × Json))
    (hif : logs.get ⟨i, hi⟩ = .obj fields)
    (hkeys : ∀ kv ∈ fields, kv.1 ∉ recognizedKeys) :
    getField r "timestamp" = some (.str ts) ∧
    ∃ evs, r = mkRecord ts status evs ∧
      ∃ hj : i < evs.length, evs.get ⟨i, hj⟩ = defaultEvent ts := by
  rcases hevs : format_events ts logs with e | evs
  · rw [format_for_wazuh, hevs] at hr
    cases hr
  · rw [format_for_wazuh, hevs] at hr
    have hr2 : mkRecord ts status evs = r := by
      simpa [Except.map] using hr
    subst hr2
    have hlen := format_events_length ts logs evs hevs
    have hj : i < evs.length := by omega
    have hget := format_events_get ts logs evs hevs i hi hj
    rw [hif, format_event_keyless ts fields hkeys] at hget
    refine ⟨by simp [getField, mkRecord, List.find?], evs, rfl, hj, ?_⟩
    injection hget with h2
    exact h2.symm

/-- Witness for C8: a single log document with one unrecognized key. -/
theorem C8_keyless_defaults_witness :
    getField (mkRecord "T" Json.null [defaultEvent "T"]) "timestamp" =
      some (.str "T") ∧
    ∃ evs, mkRecord "T" Json.null [defaultEvent "T"] = mkRecord "T" Json.null evs ∧
      ∃ hj : 0 < evs.length, evs.get ⟨0, hj⟩ = defaultEvent "T" :=
  C8_keyless_defaults "T" Json.null [Json.obj [("x", Json.num 1)]] _ rfl 0
    (by decide) [("x", Json.num 1)] rfl (by decide)

/-- C9: the persistence gate is Python truthiness of the parsed status,
not retrieval success: a status output that parses to a falsy value (such
as `{}`) short-circuits the run exactly like a failure — nothing is
retrieved, constructed or written. -/
theorem C9_truthiness_gate (out : List Char) (v : Json) (logCmd logCmd2 : CmdOutcome)
    (w : Bool) (ts : String) (file : Option (List Char))
    (hv : json_loads out = some v) (ht : v.pyTruthy = false) :
    collect (.ran 0 out) logCmd w ts file = (file, none) ∧
    collect (.ran 0 out) logCmd w ts file = collect (.ran 0 out) logCmd2 w ts file := by
  have hst : get_tailscale_status (.ran 0 out) = .ok (some v) := by
    simp [get_tailscale_status, hv]
  constructor <;> simp [collect, hst, ht]

/-- Witness for C9: the empty object `{}` parses successfully but is
falsy, so nothing is written and the log command is irrelevant. -/
theorem C9_truthiness_gate_witness :
    collect (.ran 0 ("{}".data)) (.ran 0 exLogLine) true "T" none =
      (none, none) ∧
    collect (.ran 0 ("{}".data)) (.ran 0 exLogLine) true "T" none =
      collect (.ran 0 ("{}".data)) .absent true "T" none :=
  C9_truthiness_gate ("{}".data) (.obj []) (.ran 0 exLogLine)
    .absent true "T" none (by decide) (by decide)

/-- C10: the output directory is created at collector construction,
before any collection step, so the side effect occurs on every
invocation — including runs where status retrieval fails and nothing is
ever written to the target file. -/
theorem C10_directory_created_always (statusCmd logCmd : CmdOutcome) (w : Bool)
    (ts : String) (s : FState) :
    ((runMain statusCmd logCmd w ts s).1).dirExists = true ∧
    ((∀ v, get_tailscale_status statusCmd ≠ .ok (some v)) →
      ((runMain statusCmd logCmd w ts s).1).file = s.file) := by
  constructor
  · rfl
  · intro h
    rcases hg : get_tailscale_status statusCmd with e | os
    · simp [runMain, collect, collectorInit, hg]
    · rcases os with _ | v
      · simp [runMain, collect, collectorInit, hg]
      · exact absurd hg (h v)

/-- Witness for C10: with the status tool absent and the directory
initially missing, the directory is still created while the file stays
absent. -/
theorem C10_directory_created_always_witness :
    ((runMain .absent .absent true "T" ⟨false, none⟩).1).dirExists = true ∧
    ((runMain .absent .absent true "T" ⟨false, none⟩).1).file = none :=
  ⟨(C10_directory_created_always .absent .absent true "T" ⟨false, none⟩).1,
   (C10_directory_created_always .absent .absent true "T" ⟨false, none⟩).2
     (by intro v h; simp [get_tailscale_status] at h)⟩
